import Mathlib

/-!
Verification of the glue logic of the waste-identification notebook
(`grounding-sam2.ipynb`): box normalization, region filtering, mask
compositing/cropping, artifact persistence and the classification loop.

The notebook's original logic is embedded shallowly:

* normalized detector boxes are rationals (the exact arithmetic the spec
  states), pixel boxes are integers obtained by truncation toward zero
  (numpy `astype(int)`);
* images and masks are row-major lists of rows; numpy slicing `[a:b]`
  (with clamping of overly large bounds and Python's interpretation of
  negative indices) is modelled by `pySlice`;
* the filesystem seen by the loop is an association list of
  (path, contents) pairs plus a flag for the working directory, so the
  per-detection loop and the glob-driven classification loop become
  explicit state-passing functions;
* the external models (detector, SAM2, classifier chat) are oracles
  passed in as functions, as the spec scopes them out as adapters.
-/

namespace GroundingSam2

/-- Truncation toward zero on rationals, the semantics of numpy's
`astype(int)` applied to a float array. -/
def trunc0 (q : ℚ) : ℤ := if 0 ≤ q then ⌊q⌋ else ⌈q⌉

/-- A detector box in normalized center-size format, as returned by the
Grounding Dino `predict` call (`cxcywh`, each component in `[0,1]`). -/
structure NormBox where
  cx : ℚ
  cy : ℚ
  w : ℚ
  h : ℚ
deriving DecidableEq

/-- A box in absolute integer corner coordinates, the result of
`box_convert(..., "cxcywh", "xyxy").numpy().astype(int)`. -/
structure PixelBox where
  x1 : ℤ
  y1 : ℤ
  x2 : ℤ
  y2 : ℤ
deriving DecidableEq

/-- One step of the notebook's box conversion cell: scale the four
components by `[w, h, w, h]` (`boxes * torch.Tensor([w, h, w, h])`),
convert center-size to corners (`box_convert`: `x1 = cx - 0.5*w`, etc.)
and truncate to integers (`astype(int)`). -/
def boxToPixel (W H : ℚ) (b : NormBox) : PixelBox :=
  { x1 := trunc0 (b.cx * W - b.w * W / 2)
    y1 := trunc0 (b.cy * H - b.h * H / 2)
    x2 := trunc0 (b.cx * W + b.w * W / 2)
    y2 := trunc0 (b.cy * H + b.h * H / 2) }

/-- The whole box conversion cell applied to the detector output array. -/
def normalizeBoxes (W H : ℚ) (bs : List NormBox) : List PixelBox :=
  bs.map (boxToPixel W H)

/-- The region filter condition of the per-detection loop:
`(x2-x1)*(y2-y1) < 0.25 * (image width * image height)`.  `true` means
the detection is kept (processed further), `false` means it is skipped. -/
def regionFilterKeep (imgW imgH : ℤ) (b : PixelBox) : Bool :=
  decide ((((b.x2 - b.x1) * (b.y2 - b.y1) : ℤ) : ℚ)
    < (1 / 4 : ℚ) * ((imgW : ℚ) * (imgH : ℚ)))

/-- An RGB pixel value. -/
abbrev Px := ℕ × ℕ × ℕ

/-- An image: a list of rows of pixels. -/
abbrev Grid := List (List Px)

/-- A SAM2 mask: a list of rows of float scores (binary 0/1 in practice,
nonzero meaning foreground). -/
abbrev MaskGrid := List (List ℚ)

/-- `np.where(np.expand_dims(mask*255, -1), image_source, 0)`: keep the
source pixel where the mask value (times 255) is nonzero, else black. -/
def maskedImage (m : MaskGrid) (img : Grid) : Grid :=
  List.zipWith
    (fun mrow irow =>
      List.zipWith (fun mv p => if mv * 255 ≠ 0 then p else (0, 0, 0)) mrow irow)
    m img

/-- Resolve one bound of a Python slice `[a:b]` on a sequence of length
`n`: negative indices count from the end, out-of-range bounds clamp. -/
def sliceBound (n : ℕ) (i : ℤ) : ℕ :=
  if i < 0 then ((n : ℤ) + i).toNat else min i.toNat n

/-- Python/numpy slicing `xs[a:b]`. -/
def pySlice (a b : ℤ) (xs : List α) : List α :=
  (xs.drop (sliceBound xs.length a)).take
    (sliceBound xs.length b - sliceBound xs.length a)

/-- The compositing step of the loop: mask the source image, then crop
with `[y1:y2, x1:x2]`. -/
def maskedCrop (img : Grid) (m : MaskGrid) (b : PixelBox) : Grid :=
  (pySlice b.y1 b.y2 (maskedImage m img)).map (pySlice b.x1 b.x2)

/-- Modelled from the spec: slicing that literally "clips to valid
indices", i.e. clamps both slice bounds into `[0, n]` (so a negative
bound is treated as 0, not as an offset from the end).  This is the
behavior the spec's clamping sentence describes; it is compared with the
code's `pySlice`. -/
def clampSlice (a b : ℤ) (xs : List α) : List α :=
  (xs.drop (min (max a 0).toNat xs.length)).take
    (min (max b 0).toNat xs.length - min (max a 0).toNat xs.length)

/-- Modelled from the spec: the compositor with the crop "clipped to the
valid index range" in the literal sense of `clampSlice`. -/
def clippedCrop (img : Grid) (m : MaskGrid) (b : PixelBox) : Grid :=
  (clampSlice b.y1 b.y2 (maskedImage m img)).map (clampSlice b.x1 b.x2)

/-- The pixel at row `i`, column `j` of an image (black if out of
range). -/
def cellAt (g : Grid) (i j : ℕ) : Px := (g.getD i []).getD j (0, 0, 0)

/-- The mask score at row `i`, column `j` (0 if out of range). -/
def mcellAt (m : MaskGrid) (i j : ℕ) : ℚ := (m.getD i []).getD j 0

/-- A grid with exactly `H` rows, each of length `W`. -/
def IsRect (H W : ℕ) (g : List (List α)) : Prop :=
  g.length = H ∧ ∀ r ∈ g, r.length = W

/-- The crop artifact path of the loop:
`f'tempdir/{os.path.splitext(IMAGE_PATH)[0]}_{idx}.png'`, where `base`
is the source image path without its extension. -/
def artifactName (base : String) (idx : ℕ) : String :=
  "tempdir/" ++ (base ++ "_" ++ toString idx ++ ".png")

/-- The filesystem as the loop sees it: whether the working directory
`tempdir` exists, and the files as an association list from full path to
image contents, in creation order. -/
structure FS where
  tempdirExists : Bool
  files : List (String × Grid)
deriving DecidableEq

/-- A filesystem with no files and no `tempdir`. -/
def emptyFS : FS := ⟨false, []⟩

/-- The paths of the files present, in creation order. -/
def fileNames (fs : FS) : List String := fs.files.map Prod.fst

/-- `PIL.Image.save`: (over)write one file.  An existing file with the
same path is replaced in place, otherwise the file is appended. -/
def saveFile (fs : FS) (name : String) (g : Grid) : FS :=
  if name ∈ fileNames fs then
    { fs with files := fs.files.map fun p => if p.1 = name then (name, g) else p }
  else
    { fs with files := fs.files ++ [(name, g)] }

/-- Look up a file's contents by path. -/
def readFile (fs : FS) (name : String) : Option Grid :=
  (fs.files.find? fun p => p.1 = name).map Prod.snd

/-- The per-detection loop
(`for idx, bbox in tqdm.tqdm(enumerate(xyxy)): ...`): for each pixel box,
if the region filter keeps it, query the segmenter oracle `seg` for a
mask, composite and crop, and save under `artifactName base idx`.  The
enumeration index advances for rejected boxes as well. -/
def processDetections (img : Grid) (imgW imgH : ℤ) (seg : PixelBox → MaskGrid)
    (base : String) : List PixelBox → ℕ → FS → FS
  | [], _, fs => fs
  | b :: rest, idx, fs =>
    processDetections img imgW imgH seg base rest (idx + 1)
      (if regionFilterKeep imgW imgH b then
        saveFile fs (artifactName base idx) (maskedCrop img (seg b) b)
      else fs)

/-- The crop-producing part of the notebook:
`os.makedirs('tempdir', exist_ok=True)`, the box conversion cell, and
the per-detection loop.  `imgW`/`imgH` are the source image dimensions
(`image_source.shape`), `nbs` the detector output boxes. -/
def runPipeline (img : Grid) (imgW imgH : ℤ) (seg : PixelBox → MaskGrid)
    (base : String) (nbs : List NormBox) (fs : FS) : FS :=
  processDetections img imgW imgH seg base
    (normalizeBoxes (imgW : ℚ) (imgH : ℚ) nbs) 0
    { fs with tempdirExists := true }

/-- Boolean test that `pat` is a suffix of `s`. -/
def sfxCheck (pat s : List Char) : Bool := pat.reverse.isPrefixOf s.reverse

/-- Whether a path matches the glob pattern `tempdir/*.png`. -/
def globMatch (name : String) : Bool :=
  "tempdir/".data.isPrefixOf name.data && sfxCheck ".png".data name.data

/-- `glob.glob('tempdir/*.png')`: every `.png` file under `tempdir`
present at the time of the call. -/
def globPng (fs : FS) : List String := (fileNames fs).filter globMatch

/-- The classification loop: one chat call per globbed `.png` file; the
result list pairs each crop path with the classifier oracle's answer. -/
def classifyAll (chat : String → String) (fs : FS) : List (String × String) :=
  (globPng fs).map fun p => (p, chat p)

/-- The effect of the per-detection loop on the list of file paths,
computed on paths alone (used to reason about reruns). -/
def namesAfter (imgW imgH : ℤ) (base : String) :
    List PixelBox → ℕ → List String → List String
  | [], _, ns => ns
  | b :: rest, idx, ns =>
    namesAfter imgW imgH base rest (idx + 1)
      (if regionFilterKeep imgW imgH b then
        (if artifactName base idx ∈ ns then ns else ns ++ [artifactName base idx])
      else ns)

/-! ### Helper lemmas -/

/-- The region filter condition, restated over the integers: the box is
kept exactly when four times its pixel area is less than the image area.
This is the computation rule used to evaluate the filter on concrete
inputs, since the `0.25 * ...` comparison lives in `ℚ`. -/
theorem regionFilterKeep_eq_decide (imgW imgH : ℤ) (b : PixelBox) :
    regionFilterKeep imgW imgH b
      = decide (4 * ((b.x2 - b.x1) * (b.y2 - b.y1)) < imgW * imgH) := by
  have h : ((((b.x2 - b.x1) * (b.y2 - b.y1) : ℤ) : ℚ)
      < (1 / 4 : ℚ) * ((imgW : ℚ) * (imgH : ℚ)))
      ↔ (4 * ((b.x2 - b.x1) * (b.y2 - b.y1)) < imgW * imgH) := by
    rw [show (1 / 4 : ℚ) * ((imgW : ℚ) * (imgH : ℚ))
          = ((imgW * imgH : ℤ) : ℚ) / 4 by push_cast; ring,
      lt_div_iff₀ (by norm_num),
      show ((((b.x2 - b.x1) * (b.y2 - b.y1) : ℤ) : ℚ) * 4)
          = ((4 * ((b.x2 - b.x1) * (b.y2 - b.y1)) : ℤ) : ℚ) by push_cast; ring]
    exact Int.cast_lt
  simp only [regionFilterKeep, decide_eq_decide]
  exact h

/-- Truncation toward zero is monotone. -/
theorem trunc0_mono {a b : ℚ} (hab : a ≤ b) : trunc0 a ≤ trunc0 b := by
  unfold trunc0
  by_cases ha : 0 ≤ a
  · rw [if_pos ha, if_pos (ha.trans hab)]
    exact Int.floor_mono hab
  · rw [if_neg ha]
    by_cases hb : 0 ≤ b
    · rw [if_pos hb]
      have h1 : ⌈a⌉ ≤ 0 := Int.ceil_le.mpr (by exact_mod_cast le_of_not_le ha)
      have h2 : (0 : ℤ) ≤ ⌊b⌋ := Int.floor_nonneg.mpr hb
      omega
    · rw [if_neg hb]
      exact Int.ceil_mono hab

theorem getD_drop (xs : List α) (s i : ℕ) (d : α) :
    (xs.drop s).getD i d = xs.getD (s + i) d := by
  simp [List.getD_eq_getElem?_getD, List.getElem?_drop]

theorem getD_take (xs : List α) {k i : ℕ} (h : i < k) (d : α) :
    (xs.take k).getD i d = xs.getD i d := by
  simp [List.getD_eq_getElem?_getD, List.getElem?_take, h]

theorem getD_map (f : α → β) (xs : List α) {i : ℕ} (h : i < xs.length) (d : α) (e : β) :
    (xs.map f).getD i e = f (xs.getD i d) := by
  simp [List.getD_eq_getElem?_getD, List.getElem?_map, List.getElem?_eq_getElem h]

theorem getD_zipWith (f : α → β → γ) (as : List α) (bs : List β) {i : ℕ}
    (ha : i < as.length) (hb : i < bs.length) (da : α) (db : β) (d : γ) :
    (List.zipWith f as bs).getD i d = f (as.getD i da) (bs.getD i db) := by
  simp [List.getD_eq_getElem?_getD, List.getElem?_zipWith',
    List.getElem?_eq_getElem ha, List.getElem?_eq_getElem hb]

theorem sliceBound_eq_toNat {n : ℕ} {i : ℤ} (h0 : 0 ≤ i) (hn : i ≤ (n : ℤ)) :
    sliceBound n i = i.toNat := by
  rw [sliceBound, if_neg (not_lt.mpr h0), min_eq_left (by omega)]

theorem length_pySlice {a b : ℤ} (xs : List α) (h0 : 0 ≤ a) (hab : a ≤ b)
    (hb : b ≤ (xs.length : ℤ)) : (pySlice a b xs).length = (b - a).toNat := by
  rw [pySlice, sliceBound_eq_toNat h0 (hab.trans hb), sliceBound_eq_toNat (h0.trans hab) hb,
    List.length_take, List.length_drop]
  omega

theorem getD_pySlice {a b : ℤ} (xs : List α) (h0 : 0 ≤ a) (hab : a ≤ b)
    (hb : b ≤ (xs.length : ℤ)) {i : ℕ} (hi : i < (b - a).toNat) (d : α) :
    (pySlice a b xs).getD i d = xs.getD (a.toNat + i) d := by
  rw [pySlice, sliceBound_eq_toNat h0 (hab.trans hb), sliceBound_eq_toNat (h0.trans hab) hb,
    getD_take _ (show i < b.toNat - a.toNat by omega), getD_drop]

theorem mem_pySlice {a b : ℤ} {xs : List α} {r : α} (h : r ∈ pySlice a b xs) : r ∈ xs :=
  List.mem_of_mem_drop (List.mem_of_mem_take h)

theorem IsRect.row_length {H W : ℕ} {g : List (List α)} (hg : IsRect H W g)
    {i : ℕ} (hi : i < H) : (g.getD i []).length = W := by
  have hi' : i < g.length := by rw [hg.1]; exact hi
  rw [List.getD_eq_getElem?_getD, List.getElem?_eq_getElem hi', Option.getD_some]
  exact hg.2 _ (List.getElem_mem hi')

theorem isRect_maskedImage {H W : ℕ} {m : MaskGrid} {img : Grid}
    (hm : IsRect H W m) (him : IsRect H W img) : IsRect H W (maskedImage m img) := by
  constructor
  · rw [maskedImage, List.length_zipWith, hm.1, him.1, min_self]
  · intro r hr
    rw [List.mem_iff_getElem] at hr
    obtain ⟨i, hilen, hr⟩ := hr
    rw [maskedImage, List.length_zipWith, hm.1, him.1, min_self] at hilen
    have hm' : i < m.length := by rw [hm.1]; exact hilen
    have him' : i < img.length := by rw [him.1]; exact hilen
    simp only [maskedImage, List.getElem_zipWith] at hr
    rw [← hr, List.length_zipWith, hm.2 _ (List.getElem_mem hm'),
      him.2 _ (List.getElem_mem him'), min_self]

theorem cellAt_maskedImage {H W : ℕ} {m : MaskGrid} {img : Grid}
    (hm : IsRect H W m) (him : IsRect H W img) {i j : ℕ} (hi : i < H) (hj : j < W) :
    cellAt (maskedImage m img) i j
      = if mcellAt m i j * 255 ≠ 0 then cellAt img i j else (0, 0, 0) := by
  rw [cellAt, maskedImage,
    getD_zipWith _ _ _ (by rw [hm.1]; exact hi) (by rw [him.1]; exact hi) [] [],
    getD_zipWith _ _ _ (by rw [hm.row_length hi]; exact hj)
      (by rw [him.row_length hi]; exact hj) 0 (0, 0, 0)]
  rfl

theorem isRect_maskedCrop {H W : ℕ} {m : MaskGrid} {img : Grid}
    (hm : IsRect H W m) (him : IsRect H W img) {b : PixelBox}
    (hy0 : 0 ≤ b.y1) (hy : b.y1 ≤ b.y2) (hyH : b.y2 ≤ (H : ℤ))
    (hx0 : 0 ≤ b.x1) (hx : b.x1 ≤ b.x2) (hxW : b.x2 ≤ (W : ℤ)) :
    IsRect (b.y2 - b.y1).toNat (b.x2 - b.x1).toNat (maskedCrop img m b) := by
  have hmi := isRect_maskedImage hm him
  constructor
  · rw [maskedCrop, List.length_map, length_pySlice _ hy0 hy (by rw [hmi.1]; exact hyH)]
  · intro r hr
    rw [maskedCrop, List.mem_map] at hr
    obtain ⟨r0, hr0, hr⟩ := hr
    have : r0.length = W := hmi.2 _ (mem_pySlice hr0)
    rw [← hr, length_pySlice _ hx0 hx (by rw [this]; exact hxW)]

theorem cellAt_maskedCrop {H W : ℕ} {m : MaskGrid} {img : Grid}
    (hm : IsRect H W m) (him : IsRect H W img) {b : PixelBox}
    (hy0 : 0 ≤ b.y1) (hy : b.y1 ≤ b.y2) (hyH : b.y2 ≤ (H : ℤ))
    (hx0 : 0 ≤ b.x1) (hx : b.x1 ≤ b.x2) (hxW : b.x2 ≤ (W : ℤ))
    {i j : ℕ} (hi : i < (b.y2 - b.y1).toNat) (hj : j < (b.x2 - b.x1).toNat) :
    cellAt (maskedCrop img m b) i j
      = if mcellAt m (b.y1.toNat + i) (b.x1.toNat + j) * 255 ≠ 0 then
          cellAt img (b.y1.toNat + i) (b.x1.toNat + j)
        else (0, 0, 0) := by
  have hmi := isRect_maskedImage hm him
  have hlen : i < (pySlice b.y1 b.y2 (maskedImage m img)).length := by
    rw [length_pySlice _ hy0 hy (by rw [hmi.1]; exact hyH)]; exact hi
  have hrow : (maskedImage m img).getD (b.y1.toNat + i) [] =
      ((maskedImage m img).getD (b.y1.toNat + i) []) := rfl
  have hiH : b.y1.toNat + i < H := by omega
  have hjW : b.x1.toNat + j < W := by omega
  rw [cellAt, maskedCrop, getD_map _ _ hlen [] ,
    getD_pySlice _ hy0 hy (by rw [hmi.1]; exact hyH) hi,
    getD_pySlice _ hx0 hx (by rw [hmi.row_length hiH]; exact hxW) hj]
  exact cellAt_maskedImage hm him hiH hjW

theorem saveFile_of_mem {fs : FS} {n : String} (h : n ∈ fileNames fs) (g : Grid) :
    saveFile fs n g
      = { fs with files := fs.files.map fun p => if p.1 = n then (n, g) else p } := by
  rw [saveFile, if_pos h]

theorem saveFile_of_not_mem {fs : FS} {n : String} (h : n ∉ fileNames fs) (g : Grid) :
    saveFile fs n g = { fs with files := fs.files ++ [(n, g)] } := by
  rw [saveFile, if_neg h]

theorem fileNames_saveFile (fs : FS) (n : String) (g : Grid) :
    fileNames (saveFile fs n g)
      = if n ∈ fileNames fs then fileNames fs else fileNames fs ++ [n] := by
  by_cases h : n ∈ fileNames fs
  · rw [saveFile_of_mem h, if_pos h, fileNames, fileNames, List.map_map]
    congr 1
    funext p
    by_cases hp : p.1 = n
    · simp [hp]
    · simp [hp]
  · rw [saveFile_of_not_mem h, if_neg h, fileNames, fileNames]
    simp

theorem tempdir_saveFile (fs : FS) (n : String) (g : Grid) :
    (saveFile fs n g).tempdirExists = fs.tempdirExists := by
  rw [saveFile]; split <;> rfl

theorem map_update_of_not_mem (n : String) (g : Grid) :
    ∀ (l : List (String × Grid)), n ∉ l.map Prod.fst →
      (l.map fun p => if p.1 = n then (n, g) else p) = l
  | [], _ => rfl
  | a :: t, h => by
    have ha : ¬ a.1 = n := fun e => h (by simp [← e])
    have ht : n ∉ t.map Prod.fst := fun e => h (by simp [e])
    simp only [List.map_cons, if_neg ha, map_update_of_not_mem n g t ht]

theorem saveFile_idem (fs : FS) (n : String) (g : Grid) :
    saveFile (saveFile fs n g) n g = saveFile fs n g := by
  have h1 : n ∈ fileNames (saveFile fs n g) := by
    rw [fileNames_saveFile]
    split
    · assumption
    · exact List.mem_append.mpr (Or.inr (by simp))
  rw [saveFile_of_mem h1 g]
  have hfiles : ((saveFile fs n g).files.map fun p => if p.1 = n then (n, g) else p)
      = (saveFile fs n g).files := by
    by_cases h : n ∈ fileNames fs
    · rw [saveFile_of_mem h g]
      show ((fs.files.map _).map _) = _
      rw [List.map_map]
      apply List.map_congr_left
      intro p _
      by_cases hp : p.1 = n
      · simp [Function.comp, hp]
      · simp [Function.comp, hp]
    · rw [saveFile_of_not_mem h g]
      show ((fs.files ++ [(n, g)]).map _) = _
      rw [List.map_append, map_update_of_not_mem n g fs.files h]
      simp
  cases hsv : saveFile fs n g with
  | mk td fl =>
    rw [hsv] at hfiles
    simpa using hfiles

theorem find?_fst_map_update (n : String) (g : Grid) :
    ∀ (l : List (String × Grid)), n ∈ l.map Prod.fst →
      ((l.map fun p => if p.1 = n then (n, g) else p).find? fun p => p.1 = n)
        = some (n, g)
  | [], h => by simp at h
  | a :: t, h => by
    by_cases ha : a.1 = n
    · simp only [List.map_cons, if_pos ha]
      exact List.find?_cons_of_pos _ (by simp)
    · have ht : n ∈ t.map Prod.fst := by
        simp only [List.map_cons, List.mem_cons] at h
        exact h.resolve_left fun e => ha e.symm
      simp only [List.map_cons, if_neg ha]
      rw [List.find?_cons_of_neg _ (by simp [ha])]
      exact find?_fst_map_update n g t ht

theorem find?_fst_append_not_mem (n : String) (g : Grid) :
    ∀ (l : List (String × Grid)), n ∉ l.map Prod.fst →
      ((l ++ [(n, g)]).find? fun p => p.1 = n) = some (n, g)
  | [], _ => by simp
  | a :: t, h => by
    have ha : ¬ a.1 = n := fun e => h (by simp [← e])
    have ht : n ∉ t.map Prod.fst := fun e => h (by simp [e])
    rw [List.cons_append, List.find?_cons_of_neg _ (by simp [ha])]
    exact find?_fst_append_not_mem n g t ht

theorem readFile_saveFile_same (fs : FS) (n : String) (g : Grid) :
    readFile (saveFile fs n g) n = some g := by
  by_cases h : n ∈ fileNames fs
  · rw [saveFile_of_mem h, readFile]
    show ((fs.files.map _).find? _).map Prod.snd = _
    rw [find?_fst_map_update n g fs.files h]
    rfl
  · rw [saveFile_of_not_mem h, readFile]
    show ((fs.files ++ [(n, g)]).find? _).map Prod.snd = _
    rw [find?_fst_append_not_mem n g fs.files h]
    rfl

theorem tempdir_processDetections (img : Grid) (imgW imgH : ℤ)
    (seg : PixelBox → MaskGrid) (base : String) :
    ∀ (boxes : List PixelBox) (idx : ℕ) (fs : FS),
      (processDetections img imgW imgH seg base boxes idx fs).tempdirExists
        = fs.tempdirExists
  | [], _, _ => rfl
  | b :: rest, idx, fs => by
    rw [processDetections,
      tempdir_processDetections img imgW imgH seg base rest (idx + 1) _]
    split
    · rw [tempdir_saveFile]
    · rfl

theorem fileNames_processDetections (img : Grid) (imgW imgH : ℤ)
    (seg : PixelBox → MaskGrid) (base : String) :
    ∀ (boxes : List PixelBox) (idx : ℕ) (fs : FS),
      fileNames (processDetections img imgW imgH seg base boxes idx fs)
        = namesAfter imgW imgH base boxes idx (fileNames fs)
  | [], _, _ => rfl
  | b :: rest, idx, fs => by
    rw [processDetections, namesAfter,
      fileNames_processDetections img imgW imgH seg base rest (idx + 1) _]
    congr 1
    split
    · rw [fileNames_saveFile]
    · rfl

theorem mem_namesAfter (imgW imgH : ℤ) (base : String) :
    ∀ (boxes : List PixelBox) (idx : ℕ) {ns : List String} {x : String},
      x ∈ ns → x ∈ namesAfter imgW imgH base boxes idx ns
  | [], _, _, _, h => h
  | b :: rest, idx, ns, x, h => by
    rw [namesAfter]
    apply mem_namesAfter imgW imgH base rest (idx + 1)
    split
    · split
      · exact h
      · exact List.mem_append.mpr (Or.inl h)
    · exact h

theorem prefix_namesAfter (imgW imgH : ℤ) (base : String) :
    ∀ (boxes : List PixelBox) (idx : ℕ) (ns : List String),
      ns <+: namesAfter imgW imgH base boxes idx ns
  | [], _, _ => List.prefix_refl _
  | b :: rest, idx, ns => by
    rw [namesAfter]
    refine List.IsPrefix.trans ?_ (prefix_namesAfter imgW imgH base rest (idx + 1) _)
    split
    · split
      · exact List.prefix_refl _
      · exact List.prefix_append _ _
    · exact List.prefix_refl _

theorem namesAfter_idem (imgW imgH : ℤ) (base : String) :
    ∀ (boxes : List PixelBox) (idx : ℕ) (ns : List String),
      namesAfter imgW imgH base boxes idx (namesAfter imgW imgH base boxes idx ns)
        = namesAfter imgW imgH base boxes idx ns
  | [], _, _ => rfl
  | b :: rest, idx, ns => by
    simp only [namesAfter]
    by_cases hk : regionFilterKeep imgW imgH b = true
    · simp only [if_pos hk]
      have hmem : artifactName base idx
          ∈ namesAfter imgW imgH base rest (idx + 1)
            (if artifactName base idx ∈ ns then ns else ns ++ [artifactName base idx]) := by
        apply mem_namesAfter
        split
        · assumption
        · exact List.mem_append.mpr (Or.inr (by simp))
      rw [if_pos hmem]
      exact namesAfter_idem imgW imgH base rest (idx + 1) _
    · simp only [if_neg hk]
      exact namesAfter_idem imgW imgH base rest (idx + 1) _

theorem sfxCheck_append (pat xs : List Char) : sfxCheck pat (xs ++ pat) = true := by
  rw [sfxCheck, List.reverse_append]
  exact List.isPrefixOf_iff_prefix.mpr (List.prefix_append _ _)

theorem globMatch_artifactName (base : String) (idx : ℕ) :
    globMatch (artifactName base idx) = true := by
  rw [globMatch, artifactName, Bool.and_eq_true]
  constructor
  · rw [String.data_append]
    exact List.isPrefixOf_iff_prefix.mpr (List.prefix_append _ _)
  · rw [String.data_append, String.data_append, ← List.append_assoc]
    exact sfxCheck_append _ _

theorem pySlice_eq_clampSlice {a b : ℤ} (h0 : 0 ≤ a) (hb : 0 ≤ b) (xs : List α) :
    pySlice a b xs = clampSlice a b xs := by
  simp only [pySlice, clampSlice, sliceBound]
  rw [if_neg (not_lt.mpr h0), if_neg (not_lt.mpr hb), max_eq_left h0, max_eq_left hb]

/-! ### The claims -/

/-- C1: Box Normalizer correctness: for every array of detections with
normalized center-size boxes in `[0,1]^4` and positive image dimensions
`(W, H)`, the conversion cell returns one pixel box per detection, in
order, equal to `((cx-w/2)·W, (cy-h/2)·H, (cx+w/2)·W, (cy+h/2)·H)`
truncated toward zero; whenever `w, h ≥ 0` the corners are ordered
(`x1 ≤ x2`, `y1 ≤ y2`); the empty input yields the empty output. -/
theorem box_normalizer_correct (W H : ℚ) (hW : 0 < W) (hH : 0 < H)
    (bs : List NormBox)
    (hbs : ∀ b ∈ bs, 0 ≤ b.cx ∧ b.cx ≤ 1 ∧ 0 ≤ b.cy ∧ b.cy ≤ 1
      ∧ 0 ≤ b.w ∧ b.w ≤ 1 ∧ 0 ≤ b.h ∧ b.h ≤ 1) :
    (normalizeBoxes W H bs
        = bs.map fun b =>
            { x1 := trunc0 ((b.cx - b.w / 2) * W)
              y1 := trunc0 ((b.cy - b.h / 2) * H)
              x2 := trunc0 ((b.cx + b.w / 2) * W)
              y2 := trunc0 ((b.cy + b.h / 2) * H) })
      ∧ (∀ b ∈ bs, 0 ≤ b.w → 0 ≤ b.h →
          (boxToPixel W H b).x1 ≤ (boxToPixel W H b).x2
            ∧ (boxToPixel W H b).y1 ≤ (boxToPixel W H b).y2)
      ∧ normalizeBoxes W H [] = [] := by
  refine ⟨?_, ?_, rfl⟩
  · rw [normalizeBoxes]
    apply List.map_congr_left
    intro b _
    rw [boxToPixel]
    congr 1 <;> (congr 1; ring)
  · intro b _ hw hh
    have hwW : 0 ≤ b.w * W := mul_nonneg hw hW.le
    have hhH : 0 ≤ b.h * H := mul_nonneg hh hH.le
    exact ⟨trunc0_mono (by linarith), trunc0_mono (by linarith)⟩

/-- C1 witness: the theorem applied to a concrete detection list on a
2×4 image. -/
theorem box_normalizer_correct_witness :
    (normalizeBoxes 2 4 [⟨1/2, 1/2, 1/2, 1/2⟩]
        = [(⟨1/2, 1/2, 1/2, 1/2⟩ : NormBox)].map fun b =>
            { x1 := trunc0 ((b.cx - b.w / 2) * 2)
              y1 := trunc0 ((b.cy - b.h / 2) * 4)
              x2 := trunc0 ((b.cx + b.w / 2) * 2)
              y2 := trunc0 ((b.cy + b.h / 2) * 4) })
      ∧ (∀ b ∈ [(⟨1/2, 1/2, 1/2, 1/2⟩ : NormBox)], 0 ≤ b.w → 0 ≤ b.h →
          (boxToPixel 2 4 b).x1 ≤ (boxToPixel 2 4 b).x2
            ∧ (boxToPixel 2 4 b).y1 ≤ (boxToPixel 2 4 b).y2)
      ∧ normalizeBoxes 2 4 [] = [] :=
  box_normalizer_correct 2 4 (by norm_num) (by norm_num) _
    (fun b hb => by rw [List.mem_singleton.mp hb]; norm_num)

/-- C2: the region filter rejects a pixel box exactly when its area is
at least `0.25` times the image pixel area; it is a pure predicate, and
on a single detection the loop state is the untouched input state
whenever the filter rejects (no segmentation, compositing or file write
happens for that box). -/
theorem region_filter_rule (imgW imgH : ℤ) (b : PixelBox) (img : Grid)
    (seg : PixelBox → MaskGrid) (base : String) (idx : ℕ) (fs : FS) :
    (regionFilterKeep imgW imgH b = false
        ↔ (1 / 4 : ℚ) * ((imgW : ℚ) * (imgH : ℚ))
            ≤ (((b.x2 - b.x1) * (b.y2 - b.y1) : ℤ) : ℚ))
      ∧ processDetections img imgW imgH seg base [b] idx fs
          = (if regionFilterKeep imgW imgH b then
              saveFile fs (artifactName base idx) (maskedCrop img (seg b) b)
            else fs) := by
  constructor
  · rw [regionFilterKeep, decide_eq_false_iff_not, not_lt]
  · rfl

/-- C3 counterexample: on a 2×2 image, the box `(0,0,1,1)` has area 1,
exactly 25% of the image area 4, and the filter rejects it — the claim
says it is retained. -/
theorem region_filter_boundary_cex :
    ¬ (regionFilterKeep 2 2 ⟨0, 0, 1, 1⟩ = true) := by
  rw [regionFilterKeep_eq_decide]
  decide

/-- C3 (amended): retention is the strict condition
`area < 0.25 · image area`; a box whose area is exactly 25% of the image
area is rejected (shown on a 10×10 image with a 5×5 box), and a box at
26% is rejected (a 13×2 box on the same image). -/
theorem region_filter_boundary_amended (imgW imgH : ℤ) (b : PixelBox) :
    (regionFilterKeep imgW imgH b = true
        ↔ (((b.x2 - b.x1) * (b.y2 - b.y1) : ℤ) : ℚ)
            < (1 / 4 : ℚ) * ((imgW : ℚ) * (imgH : ℚ)))
      ∧ regionFilterKeep 10 10 ⟨0, 0, 5, 5⟩ = false
      ∧ regionFilterKeep 10 10 ⟨0, 0, 13, 2⟩ = false := by
  refine ⟨?_, ?_, ?_⟩
  · rw [regionFilterKeep, decide_eq_true_eq]
  · rw [regionFilterKeep_eq_decide]; decide
  · rw [regionFilterKeep_eq_decide]; decide

/-- C4: Crop Compositor pixel rule: for a source image and a mask of the
same `H×W` shape and a pixel box lying inside the image, the composited
output is exactly the `(y2-y1)×(x2-x1)` rectangle (no pixels outside
it), and each of its pixels is the source pixel where the mask is
nonzero and black where the mask is zero. -/
theorem crop_compositor_pixel_rule {H W : ℕ} {img : Grid} {m : MaskGrid}
    (him : IsRect H W img) (hm : IsRect H W m) {b : PixelBox}
    (hy0 : 0 ≤ b.y1) (hy : b.y1 ≤ b.y2) (hyH : b.y2 ≤ (H : ℤ))
    (hx0 : 0 ≤ b.x1) (hx : b.x1 ≤ b.x2) (hxW : b.x2 ≤ (W : ℤ)) :
    IsRect (b.y2 - b.y1).toNat (b.x2 - b.x1).toNat (maskedCrop img m b)
      ∧ ∀ i j, i < (b.y2 - b.y1).toNat → j < (b.x2 - b.x1).toNat →
          cellAt (maskedCrop img m b) i j
            = (if mcellAt m (b.y1.toNat + i) (b.x1.toNat + j) ≠ 0 then
                cellAt img (b.y1.toNat + i) (b.x1.toNat + j)
              else (0, 0, 0)) := by
  refine ⟨isRect_maskedCrop hm him hy0 hy hyH hx0 hx hxW, ?_⟩
  intro i j hi hj
  rw [cellAt_maskedCrop hm him hy0 hy hyH hx0 hx hxW hi hj]
  have hcond : (mcellAt m (b.y1.toNat + i) (b.x1.toNat + j) * 255 ≠ 0)
      ↔ (mcellAt m (b.y1.toNat + i) (b.x1.toNat + j) ≠ 0) := by
    rw [mul_ne_zero_iff]
    exact and_iff_left (by norm_num)
  rw [if_congr hcond rfl rfl]

/-- C4 witness: the theorem applied to a concrete 2×2 image, mask and
the in-bounds box `(0,0,1,2)`. -/
theorem crop_compositor_pixel_rule_witness :
    IsRect ((2 : ℤ) - 0).toNat ((1 : ℤ) - 0).toNat
        (maskedCrop [[(7,7,7), (8,8,8)], [(9,9,9), (1,1,1)]] [[1, 0], [0, 1]]
          ⟨0, 0, 1, 2⟩)
      ∧ ∀ i j, i < ((2 : ℤ) - 0).toNat → j < ((1 : ℤ) - 0).toNat →
          cellAt (maskedCrop [[(7,7,7), (8,8,8)], [(9,9,9), (1,1,1)]] [[1, 0], [0, 1]]
              ⟨0, 0, 1, 2⟩) i j
            = (if mcellAt [[1, 0], [0, 1]] ((0 : ℤ).toNat + i) ((0 : ℤ).toNat + j) ≠ 0 then
                cellAt [[(7,7,7), (8,8,8)], [(9,9,9), (1,1,1)]] ((0 : ℤ).toNat + i)
                  ((0 : ℤ).toNat + j)
              else (0, 0, 0)) :=
  crop_compositor_pixel_rule (H := 2) (W := 2)
    (by refine ⟨rfl, ?_⟩; intro r hr; fin_cases hr <;> rfl)
    (by refine ⟨rfl, ?_⟩; intro r hr; fin_cases hr <;> rfl)
    (by decide) (by decide) (by decide) (by decide) (by decide) (by decide)

/-- C5 counterexample: the box `(-1, 0, 3, 1)` extends outside a 1×4
image on the left; the claim says the crop is the rectangle clipped to
the valid index range, but Python slicing treats the negative bound as
an offset from the end, so the code produces an empty row instead of the
three clipped pixels. -/
theorem crop_clamping_cex :
    maskedCrop [[(1,1,1), (2,2,2), (3,3,3), (4,4,4)]] [[1, 1, 1, 1]] ⟨-1, 0, 3, 1⟩
      ≠ clippedCrop [[(1,1,1), (2,2,2), (3,3,3), (4,4,4)]] [[1, 1, 1, 1]] ⟨-1, 0, 3, 1⟩ := by
  norm_num [maskedCrop, clippedCrop, maskedImage, pySlice, clampSlice, sliceBound]
  simp

/-- C5 (amended): for a pixel box with nonnegative coordinates the crop
is exactly the rectangle clipped to the valid index range (bounds past
the image edge clamp, and nothing is an error — the compositor is a
total function); a negative coordinate, however, follows Python's
offset-from-the-end slicing semantics rather than clamping to 0. -/
theorem crop_clamping_amended (img : Grid) (m : MaskGrid) (b : PixelBox)
    (hx1 : 0 ≤ b.x1) (hy1 : 0 ≤ b.y1) (hx2 : 0 ≤ b.x2) (hy2 : 0 ≤ b.y2) :
    maskedCrop img m b = clippedCrop img m b := by
  rw [maskedCrop, clippedCrop, pySlice_eq_clampSlice hy1 hy2]
  exact List.map_congr_left fun r _ => pySlice_eq_clampSlice hx1 hx2 r

/-- C5 witness: a box with `x2` beyond the right edge of a 1×2 image is
clipped without error. -/
theorem crop_clamping_amended_witness :
    maskedCrop [[(1,1,1), (2,2,2)]] [[1, 1]] ⟨0, 0, 5, 1⟩
      = clippedCrop [[(1,1,1), (2,2,2)]] [[1, 1]] ⟨0, 0, 5, 1⟩ :=
  crop_clamping_amended _ _ _ (by decide) (by decide) (by decide) (by decide)

/-- C6: the loop has no zero-area-crop guard.  On a 4×4 image, the
detection `(3/8, 1/2, 0, 1/2)` converts to the pixel box `(1,1,1,3)`
with `x1 = x2`; it passes the region filter (area 0), its crop is the
degenerate zero-width image `[[], []]`, and the loop still persists an
artifact file for it — it is not detected and skipped. -/
theorem zero_area_crop_written :
    (runPipeline
        [[(1,1,1), (1,1,1), (1,1,1), (1,1,1)],
         [(2,2,2), (2,2,2), (2,2,2), (2,2,2)],
         [(3,3,3), (3,3,3), (3,3,3), (3,3,3)],
         [(4,4,4), (4,4,4), (4,4,4), (4,4,4)]]
        4 4
        (fun _ => [[1, 1, 1, 1], [1, 1, 1, 1], [1, 1, 1, 1], [1, 1, 1, 1]])
        "IMG" [⟨3/8, 1/2, 0, 1/2⟩] emptyFS).files
      = [(artifactName "IMG" 0, [[], []])] := by
  have hb : boxToPixel ((4:ℤ) : ℚ) ((4:ℤ) : ℚ) ⟨3/8, 1/2, 0, 1/2⟩ = ⟨1, 1, 1, 3⟩ := by
    simp only [boxToPixel]
    norm_num [trunc0]
  rw [runPipeline, normalizeBoxes, List.map_cons, List.map_nil, hb]
  simp only [processDetections]
  rw [if_pos (show regionFilterKeep 4 4 ⟨1, 1, 1, 3⟩ = true by
        rw [regionFilterKeep_eq_decide]; decide),
    saveFile_of_not_mem (by simp [fileNames, emptyFS]) _]
  simp only [emptyFS, List.nil_append]
  norm_num [maskedCrop, maskedImage, pySlice, sliceBound]
  decide

/-- C7: end-to-end retained-detection scenario: on a 1000×1000 source
image with the single detection `(0.5, 0.5, 0.1, 0.1)` (pixel box
`(450,450,550,550)`, area 10000 = 1% of the image), starting from an
empty filesystem the loop keeps the detection, composites the segmenter
mask over the box, writes exactly the one artifact
`tempdir/{base}_0.png`, and the classification loop records exactly one
result, for that artifact. -/
theorem end_to_end_retained (img : Grid) (him : IsRect 1000 1000 img)
    (seg : PixelBox → MaskGrid) (chat : String → String) (base : String) :
    ((runPipeline img 1000 1000 seg base [⟨1/2, 1/2, 1/10, 1/10⟩] emptyFS).files
        = [(artifactName base 0,
            maskedCrop img (seg ⟨450, 450, 550, 550⟩) ⟨450, 450, 550, 550⟩)])
      ∧ artifactName base 0 = "tempdir/" ++ base ++ "_0.png"
      ∧ classifyAll chat
            (runPipeline img 1000 1000 seg base [⟨1/2, 1/2, 1/10, 1/10⟩] emptyFS)
          = [(artifactName base 0, chat (artifactName base 0))] := by
  have hb : boxToPixel ((1000:ℤ) : ℚ) ((1000:ℤ) : ℚ) ⟨1/2, 1/2, 1/10, 1/10⟩
      = ⟨450, 450, 550, 550⟩ := by
    simp only [boxToPixel]
    norm_num [trunc0]
  have hfiles : (runPipeline img 1000 1000 seg base [⟨1/2, 1/2, 1/10, 1/10⟩]
        emptyFS).files
      = [(artifactName base 0,
          maskedCrop img (seg ⟨450, 450, 550, 550⟩) ⟨450, 450, 550, 550⟩)] := by
    rw [runPipeline, normalizeBoxes, List.map_cons, List.map_nil, hb]
    simp only [processDetections]
    rw [if_pos (show regionFilterKeep 1000 1000 ⟨450, 450, 550, 550⟩ = true by
          rw [regionFilterKeep_eq_decide]; decide),
      saveFile_of_not_mem (by simp [fileNames, emptyFS]) _]
    simp [emptyFS]
  refine ⟨hfiles, ?_, ?_⟩
  · have h0 : ("_" : String) ++ (toString (0 : ℕ) ++ ".png") = "_0.png" := rfl
    rw [artifactName, String.append_assoc (base ++ "_") (toString 0) ".png",
      String.append_assoc base "_" (toString 0 ++ ".png"), h0,
      ← String.append_assoc]
  · rw [classifyAll, globPng, fileNames, hfiles, List.map_cons, List.map_nil]
    simp [globMatch_artifactName]

/-- C7 witness: the theorem applied to the all-black 1000×1000 image, a
trivial segmenter and classifier, and base name `IMG`. -/
theorem end_to_end_retained_witness :
    (runPipeline (List.replicate 1000 (List.replicate 1000 ((0,0,0) : Px)))
        1000 1000 (fun _ => []) "IMG" [⟨1/2, 1/2, 1/10, 1/10⟩] emptyFS).files.length
      = 1 := by
  rw [(end_to_end_retained
    (List.replicate 1000 (List.replicate 1000 ((0,0,0) : Px)))
    (by
      refine ⟨List.length_replicate _ _, ?_⟩
      intro r hr
      rw [List.eq_of_mem_replicate hr]
      exact List.length_replicate _ _)
    (fun _ => []) (fun _ => "yes") "IMG").1]
  rfl

/-- C8: artifact naming and overwrite: a rerun over the same image and
detections writes exactly the same paths (the name is a deterministic
function of base name and detection index, with no collision handling);
files present before a run are still present, as a prefix, afterwards
(nothing is cleaned up); the working directory exists after a run; and
concretely, rerunning with a different segmentation overwrites the
earlier crop contents in place. -/
theorem artifact_naming_overwrite (img : Grid) (imgW imgH : ℤ)
    (seg1 seg2 : PixelBox → MaskGrid) (base : String) (nbs : List NormBox)
    (fs : FS) :
    (fileNames (runPipeline img imgW imgH seg2 base nbs
          (runPipeline img imgW imgH seg1 base nbs fs))
        = fileNames (runPipeline img imgW imgH seg1 base nbs fs))
      ∧ (fileNames fs <+: fileNames (runPipeline img imgW imgH seg1 base nbs fs))
      ∧ ((runPipeline img imgW imgH seg1 base nbs fs).tempdirExists = true)
      ∧ ((runPipeline [[(7,7,7)]] 4 4 (fun _ => [[0]]) "IMG"
            [⟨1/8, 1/8, 1/4, 1/4⟩]
            (runPipeline [[(7,7,7)]] 4 4 (fun _ => [[1]]) "IMG"
              [⟨1/8, 1/8, 1/4, 1/4⟩] emptyFS)).files
          = [(artifactName "IMG" 0, [[(0, 0, 0)]])]) := by
  have hnames : ∀ (s : FS) (sg : PixelBox → MaskGrid),
      fileNames (runPipeline img imgW imgH sg base nbs s)
        = namesAfter imgW imgH base (normalizeBoxes (imgW : ℚ) (imgH : ℚ) nbs) 0
            (fileNames s) := by
    intro s sg
    rw [runPipeline, fileNames_processDetections]
    rfl
  have hb : boxToPixel ((4:ℤ) : ℚ) ((4:ℤ) : ℚ) ⟨1/8, 1/8, 1/4, 1/4⟩
      = ⟨0, 0, 1, 1⟩ := by
    simp only [boxToPixel]
    norm_num [trunc0]
  have hkeep : regionFilterKeep 4 4 ⟨0, 0, 1, 1⟩ = true := by
    rw [regionFilterKeep_eq_decide]; decide
  have h1 : (runPipeline [[(7,7,7)]] 4 4 (fun _ => [[1]]) "IMG"
        [⟨1/8, 1/8, 1/4, 1/4⟩] emptyFS).files
      = [(artifactName "IMG" 0, [[(7,7,7)]])] := by
    rw [runPipeline, normalizeBoxes, List.map_cons, List.map_nil, hb]
    simp only [processDetections]
    rw [if_pos hkeep, saveFile_of_not_mem (by simp [fileNames, emptyFS]) _]
    simp only [emptyFS, List.nil_append]
    norm_num [maskedCrop, maskedImage, pySlice, sliceBound]
  refine ⟨?_, ?_, ?_, ?_⟩
  · rw [hnames (runPipeline img imgW imgH seg1 base nbs fs) seg2, hnames fs seg1,
      namesAfter_idem]
  · rw [hnames fs seg1]
    exact prefix_namesAfter _ _ _ _ _ _
  · rw [runPipeline, tempdir_processDetections]
  · rw [runPipeline, normalizeBoxes, List.map_cons, List.map_nil, hb]
    simp only [processDetections]
    rw [if_pos hkeep,
      saveFile_of_mem (by rw [fileNames]; show _ ∈ List.map _ _; rw [h1]; simp) _]
    show (List.map _ (runPipeline [[(7,7,7)]] 4 4 (fun _ => [[1]]) "IMG"
      [⟨1/8, 1/8, 1/4, 1/4⟩] emptyFS).files) = _
    rw [h1]
    simp only [List.map_cons, List.map_nil, if_pos rfl]
    norm_num [maskedCrop, maskedImage, pySlice, sliceBound]

/-- C9: Crop Compositor determinism/idempotence: saving the composite of
the same image, mask and box twice under the same path leaves the
filesystem exactly as after the first save, and the persisted contents
are exactly the (deterministically computed) composite. -/
theorem compositor_idempotent (fs : FS) (img : Grid) (m : MaskGrid)
    (b : PixelBox) (name : String) :
    (saveFile (saveFile fs name (maskedCrop img m b)) name (maskedCrop img m b)
        = saveFile fs name (maskedCrop img m b))
      ∧ readFile (saveFile (saveFile fs name (maskedCrop img m b)) name
            (maskedCrop img m b)) name
          = some (maskedCrop img m b) := by
  refine ⟨saveFile_idem _ _ _, ?_⟩
  rw [saveFile_idem]
  exact readFile_saveFile_same _ _ _

/-- C10: the classification loop is driven by the glob over `tempdir`:
it produces exactly one result per `.png` file present there at
classification time (same paths, same count), independently of the
current run's retained detections — in particular, with a stale crop
left in `tempdir` and a run retaining zero detections, one result is
still produced. -/
theorem classification_by_glob (chat : String → String) (fs : FS) :
    ((classifyAll chat fs).length = (globPng fs).length)
      ∧ ((classifyAll chat fs).map Prod.fst = globPng fs)
      ∧ (classifyAll chat
            (runPipeline [[(7,7,7)]] 4 4 (fun _ => [[1]]) "IMG" []
              ⟨true, [("tempdir/stale.png", [[]])]⟩)).length = 1 := by
  refine ⟨by rw [classifyAll, List.length_map], ?_, ?_⟩
  · rw [classifyAll, List.map_map]
    exact List.map_id _
  · rw [runPipeline, normalizeBoxes, List.map_nil, processDetections, classifyAll,
      globPng]
    rfl

end GroundingSam2

